import Mathlib

/-!
Verification of the anagram kata (src/anagram_kata/Source.cpp).

The program treats text as sequences of 8-bit code units; we model a text
as a `List Nat` of byte values.  `compute_anagram` filters the text to its
alphanumeric bytes, returns `none` when nothing remains, and otherwise
lowercases and sorts the retained bytes.  The dictionary is a
`std::map<anagram_key, std::set<text>>`; we model it as an association
list whose keys are kept in ascending lexicographic order and whose
groups are lists kept sorted and duplicate-free, exactly the
representation invariant of the ordered map/set pair.  The mutating
insert and the read-only lookup both thread the dictionary state
explicitly.
-/

namespace AnagramKata

/-- A text is a sequence of 8-bit code units, modelled as byte values. -/
abbrev Text := List Nat

/-- An anagram key is itself a string of byte values. -/
abbrev AnagramKey := List Nat

/-- Classification used by the program via std::isalnum in the default C
locale: decimal digits, uppercase letters and lowercase letters. -/
def isalnum (c : Nat) : Bool :=
  (48 ≤ c && c ≤ 57) || (65 ≤ c && c ≤ 90) || (97 ≤ c && c ≤ 122)

/-- Case folding used by the program via std::tolower in the default C
locale: uppercase letters map to the corresponding lowercase letter,
every other byte is unchanged. -/
def tolower (c : Nat) : Nat :=
  if 65 ≤ c && c ≤ 90 then c + 32 else c

/-- Embedding of compute_anagram (Source.cpp lines 71-97): copy the
alphanumeric bytes, fail with none when none remain, otherwise lowercase
them and sort them in ascending order. -/
def compute_anagram (t : Text) : Option AnagramKey :=
  let key := t.filter isalnum
  if key = [] then none
  else some (List.insertionSort (· ≤ ·) (key.map tolower))

/-- The case-folded, symbol-stripped character multiset of a text, the
abstraction the specification compares keys by. -/
def charMultiset (t : Text) : Multiset Nat :=
  ((t.filter isalnum).map tolower : List Nat)

/-- Lexicographic byte-wise strict order on texts, the comparison used by
std::string inside std::map and std::set. -/
def textLt : Text → Text → Bool
  | [], [] => false
  | [], _ :: _ => true
  | _ :: _, [] => false
  | a :: as, b :: bs =>
    if a < b then true
    else if b < a then false
    else textLt as bs

/-- Embedding of std::set<text>::insert on the sorted, duplicate-free
list representing the set: returns the new contents and whether the
element was actually inserted. -/
def set_insert (s : List Text) (t : Text) : List Text × Bool :=
  match s with
  | [] => ([t], true)
  | x :: xs =>
    if textLt t x then (t :: x :: xs, true)
    else if textLt x t then
      let r := set_insert xs t
      (x :: r.1, r.2)
    else (x :: xs, false)

/-- The dictionary maps anagram keys to groups of original texts; the
association list keeps keys in ascending order, mirroring std::map. -/
abbrev AnagramDictionary := List (AnagramKey × List Text)

/-- Embedding of std::map::find: the group stored for a key, if any. -/
def dict_find (d : AnagramDictionary) (k : AnagramKey) : Option (List Text) :=
  match d with
  | [] => none
  | (k', g) :: rest => if k' = k then some g else dict_find rest k

/-- Embedding of dictionary[key].insert(text): find or create the group
for the key at its ordered position, then set-insert the text.  Returns
the inserted flag together with the new dictionary. -/
def dict_insert_text (d : AnagramDictionary) (k : AnagramKey) (t : Text) :
    Bool × AnagramDictionary :=
  match d with
  | [] => (true, [(k, [t])])
  | (k', g) :: rest =>
    if textLt k k' then (true, (k, [t]) :: (k', g) :: rest)
    else if textLt k' k then
      let r := dict_insert_text rest k t
      (r.1, (k', g) :: r.2)
    else
      let r := set_insert g t
      (r.2, (k', r.1) :: rest)

/-- Embedding of insert_into_anagram_dictionary (Source.cpp lines
99-115): compute the key; on failure return false without touching the
dictionary; otherwise insert the original text into the key's group. -/
def insert_into_anagram_dictionary (d : AnagramDictionary) (t : Text) :
    Bool × AnagramDictionary :=
  match compute_anagram t with
  | none => (false, d)
  | some k => dict_insert_text d k t

/-- Embedding of fetch_matching_anagrams (Source.cpp lines 117-130):
compute the key; on failure return none; otherwise find the key and
return its group unless the group is empty.  The dictionary is threaded
through unchanged because the function only reads it. -/
def fetch_matching_anagrams (d : AnagramDictionary) (t : Text) :
    Option (List Text) × AnagramDictionary :=
  match compute_anagram t with
  | none => (none, d)
  | some k =>
    match dict_find d k with
    | none => (none, d)
    | some g => (if g = [] then none else some g, d)

theorem textLt_irrefl (l : Text) : textLt l l = false := by
  induction l with
  | nil => rfl
  | cons a as ih => simp [textLt, ih]

theorem textLt_asymm {a b : Text} (h : textLt a b = true) : textLt b a = false := by
  induction a generalizing b with
  | nil =>
    cases b with
    | nil => simp [textLt] at h
    | cons x xs => simp [textLt]
  | cons x xs ih =>
    cases b with
    | nil => simp [textLt] at h
    | cons y ys =>
      simp only [textLt] at h ⊢
      rcases Nat.lt_trichotomy x y with hxy | hxy | hxy
      · simp [hxy, Nat.not_lt.mpr (Nat.le_of_lt hxy), Nat.lt_irrefl]
      · subst hxy
        simp only [Nat.lt_irrefl, if_false] at h ⊢
        exact ih h
      · simp [hxy, Nat.not_lt.mpr (Nat.le_of_lt hxy)] at h

theorem textLt_trans {a b c : Text} (hab : textLt a b = true)
    (hbc : textLt b c = true) : textLt a c = true := by
  induction a generalizing b c with
  | nil =>
    cases b with
    | nil => simp [textLt] at hab
    | cons y ys =>
      cases c with
      | nil => simp [textLt] at hbc
      | cons z zs => simp [textLt]
  | cons x xs ih =>
    cases b with
    | nil => simp [textLt] at hab
    | cons y ys =>
      cases c with
      | nil => simp [textLt] at hbc
      | cons z zs =>
        simp only [textLt] at hab hbc ⊢
        rcases Nat.lt_trichotomy x y with hxy | hxy | hxy
        · rcases Nat.lt_trichotomy y z with hyz | hyz | hyz
          · simp [Nat.lt_trans hxy hyz]
          · subst hyz; simp [hxy]
          · simp [hyz, Nat.not_lt.mpr (Nat.le_of_lt hyz)] at hbc
        · subst hxy
          rcases Nat.lt_trichotomy x z with hyz | hyz | hyz
          · simp [hyz]
          · subst hyz
            simp only [Nat.lt_irrefl, if_false] at hab hbc ⊢
            exact ih hab hbc
          · simp [hyz, Nat.not_lt.mpr (Nat.le_of_lt hyz)] at hbc
        · simp [hxy, Nat.not_lt.mpr (Nat.le_of_lt hxy)] at hab

theorem textLt_connex {a b : Text} (hab : textLt a b = false)
    (hba : textLt b a = false) : a = b := by
  induction a generalizing b with
  | nil =>
    cases b with
    | nil => rfl
    | cons y ys => simp [textLt] at hab
  | cons x xs ih =>
    cases b with
    | nil => simp [textLt] at hba
    | cons y ys =>
      simp only [textLt] at hab hba
      rcases Nat.lt_trichotomy x y with hxy | hxy | hxy
      · simp [hxy] at hab
      · subst hxy
        simp only [Nat.lt_irrefl, if_false] at hab hba
        exact congrArg (x :: ·) (ih hab hba)
      · simp [hxy, Nat.not_lt.mpr (Nat.le_of_lt hxy)] at hba

theorem insertionSort_eq_iff_perm (l₁ l₂ : List Nat) :
    List.insertionSort (· ≤ ·) l₁ = List.insertionSort (· ≤ ·) l₂ ↔ l₁.Perm l₂ := by
  constructor
  · intro h
    exact ((List.perm_insertionSort _ l₁).symm.trans (List.Perm.of_eq h)).trans
      (List.perm_insertionSort _ l₂)
  · intro h
    exact List.eq_of_perm_of_sorted
      ((List.perm_insertionSort _ l₁).trans (h.trans (List.perm_insertionSort _ l₂).symm))
      (List.sorted_insertionSort _ l₁) (List.sorted_insertionSort _ l₂)

/-- C1: for all texts a and b, compute_anagram gives the same result on a
and on b exactly when, after discarding non-alphanumeric characters and
folding case to lowercase, the remaining characters of a and b form the
same multiset. -/
theorem compute_anagram_eq_iff_charMultiset_eq (a b : Text) :
    compute_anagram a = compute_anagram b ↔ charMultiset a = charMultiset b := by
  unfold compute_anagram charMultiset
  by_cases ha : a.filter isalnum = [] <;> by_cases hb : b.filter isalnum = []
  · simp [ha, hb]
  · rw [if_pos ha, if_neg hb]
    apply iff_of_false
    · exact fun h => Option.noConfusion h
    · intro h
      rw [ha] at h
      have hperm : List.Perm [] ((b.filter isalnum).map tolower) :=
        Multiset.coe_eq_coe.mp h
      exact hb (List.eq_nil_of_map_eq_nil hperm.symm.eq_nil)
  · rw [if_neg ha, if_pos hb]
    apply iff_of_false
    · exact fun h => Option.noConfusion h
    · intro h
      rw [hb] at h
      have hperm : List.Perm ((a.filter isalnum).map tolower) [] :=
        Multiset.coe_eq_coe.mp h
      exact ha (List.eq_nil_of_map_eq_nil hperm.eq_nil)
  · rw [if_neg ha, if_neg hb]
    simp [Multiset.coe_eq_coe, insertionSort_eq_iff_perm]

/-- Sortedness of a group, the representation invariant of std::set. -/
def groupSorted (g : List Text) : Prop :=
  g.Pairwise (fun a b => textLt a b = true)

/-- Well-formedness of a dictionary: keys strictly ascending (std::map
invariant) and every group sorted (std::set invariant). -/
def dictWF (d : AnagramDictionary) : Prop :=
  (d.map Prod.fst).Pairwise (fun a b => textLt a b = true) ∧
  ∀ p ∈ d, groupSorted p.2

/-- The group currently stored for a key, or the empty group. -/
def groupOf (d : AnagramDictionary) (k : AnagramKey) : List Text :=
  (dict_find d k).getD []

theorem set_insert_of_mem {g : List Text} {t : Text} (hs : groupSorted g)
    (hmem : t ∈ g) : set_insert g t = (g, false) := by
  induction g with
  | nil => cases hmem
  | cons x xs ih =>
    rcases List.mem_cons.mp hmem with rfl | hmem'
    · simp [set_insert, textLt_irrefl]
    · have hxt : textLt x t = true :=
        (List.rel_of_pairwise_cons hs hmem')
      have htx : textLt t x = false := textLt_asymm hxt
      have ihr := ih (List.Pairwise.of_cons hs) hmem'
      simp [set_insert, hxt, htx, ihr]

theorem set_insert_of_not_mem {g : List Text} {t : Text} (hmem : t ∉ g) :
    (set_insert g t).2 = true ∧ (set_insert g t).1.Perm (t :: g) := by
  induction g with
  | nil => exact ⟨rfl, List.Perm.refl _⟩
  | cons x xs ih =>
    have hne : t ≠ x := fun h => hmem (h ▸ List.mem_cons_self t xs)
    have hmem' : t ∉ xs := fun h => hmem (List.mem_cons_of_mem x h)
    by_cases htx : textLt t x = true
    · simp [set_insert, htx]
    · have hxt : textLt x t = true := by
        cases hxt : textLt x t with
        | true => rfl
        | false => exact absurd (textLt_connex (Bool.of_not_eq_true htx) hxt) hne
      obtain ⟨h1, h2⟩ := ih hmem'
      refine ⟨by simp [set_insert, htx, hxt, h1], ?_⟩
      have : (set_insert (x :: xs) t).1 = x :: (set_insert xs t).1 := by
        simp [set_insert, htx, hxt]
      rw [this]
      exact (h2.cons x).trans (List.Perm.swap t x xs)

theorem set_insert_mem (g : List Text) (t : Text) : t ∈ (set_insert g t).1 := by
  induction g with
  | nil => simp [set_insert]
  | cons x xs ih =>
    by_cases htx : textLt t x = true
    · simp [set_insert, htx]
    · by_cases hxt : textLt x t = true
      · have h1 : (set_insert (x :: xs) t).1 = x :: (set_insert xs t).1 := by
          simp [set_insert, htx, hxt]
        rw [h1]
        exact List.mem_cons_of_mem x ih
      · have heq : t = x :=
          textLt_connex (Bool.of_not_eq_true htx) (Bool.of_not_eq_true hxt)
        have h1 : (set_insert (x :: xs) t).1 = x :: xs := by
          simp [set_insert, htx, hxt]
        rw [h1, heq]
        exact List.mem_cons_self x xs

theorem set_insert_ne_nil (g : List Text) (t : Text) : (set_insert g t).1 ≠ [] := by
  cases g with
  | nil => simp [set_insert]
  | cons x xs =>
    by_cases htx : textLt t x = true <;> by_cases hxt : textLt x t = true <;>
      simp [set_insert, htx, hxt]

theorem dict_find_mem_keys {d : AnagramDictionary} {k : AnagramKey}
    {g : List Text} (h : dict_find d k = some g) : k ∈ d.map Prod.fst := by
  induction d with
  | nil => simp [dict_find] at h
  | cons p rest ih =>
    obtain ⟨k', g'⟩ := p
    by_cases hk : k' = k
    · subst hk; exact List.mem_cons_self _ _
    · simp only [dict_find, if_neg hk] at h
      exact List.mem_cons_of_mem _ (ih h)

theorem dict_find_eq_none {d : AnagramDictionary} {k : AnagramKey}
    (h : k ∉ d.map Prod.fst) : dict_find d k = none := by
  induction d with
  | nil => rfl
  | cons p rest ih =>
    obtain ⟨k', g'⟩ := p
    have hk : k' ≠ k := fun he => h (he ▸ List.mem_cons_self _ _)
    simp only [dict_find, if_neg hk]
    exact ih (fun hin => h (List.mem_cons_of_mem _ hin))

theorem dictWF_tail {p : AnagramKey × List Text} {rest : AnagramDictionary}
    (hwf : dictWF (p :: rest)) : dictWF rest :=
  ⟨List.Pairwise.of_cons hwf.1, fun q hq => hwf.2 q (List.mem_cons_of_mem _ hq)⟩

theorem groupOf_not_mem_lt_head {k k' : AnagramKey} {g : List Text}
    {rest : AnagramDictionary} (hwf : dictWF ((k', g) :: rest))
    (hlt : textLt k k' = true) : groupOf ((k', g) :: rest) k = [] := by
  have hk : k' ≠ k := by
    intro he
    subst he
    rw [textLt_irrefl] at hlt
    cases hlt
  have hnin : k ∉ rest.map Prod.fst := by
    intro hin
    have h1 : textLt k' k = true := List.rel_of_pairwise_cons hwf.1 hin
    have h2 := textLt_trans hlt h1
    rw [textLt_irrefl] at h2
    cases h2
  simp [groupOf, dict_find, hk, dict_find_eq_none hnin]

theorem dict_insert_of_mem {d : AnagramDictionary} {k : AnagramKey} {t : Text}
    (hwf : dictWF d) (hmem : t ∈ groupOf d k) :
    dict_insert_text d k t = (false, d) := by
  induction d with
  | nil => simp [groupOf, dict_find] at hmem
  | cons p rest ih =>
    obtain ⟨k', g⟩ := p
    by_cases hk : k' = k
    · subst hk
      have hg : groupOf ((k', g) :: rest) k' = g := by simp [groupOf, dict_find]
      rw [hg] at hmem
      have hgs : groupSorted g := hwf.2 (k', g) (List.mem_cons_self _ _)
      simp [dict_insert_text, textLt_irrefl, set_insert_of_mem hgs hmem]
    · have hgo : groupOf ((k', g) :: rest) k = groupOf rest k := by
        simp [groupOf, dict_find, hk]
      rw [hgo] at hmem
      have hkin : k ∈ rest.map Prod.fst := by
        rcases hfind : dict_find rest k with _ | g'
        · rw [groupOf, hfind] at hmem; cases hmem
        · exact dict_find_mem_keys hfind
      have hk'k : textLt k' k = true := List.rel_of_pairwise_cons hwf.1 hkin
      have hkk' : textLt k k' = false := textLt_asymm hk'k
      have ihr := ih (dictWF_tail hwf) hmem
      simp [dict_insert_text, hkk', hk'k, ihr]

theorem dict_insert_flag {d : AnagramDictionary} {k : AnagramKey} {t : Text}
    (hwf : dictWF d) :
    (dict_insert_text d k t).1 = (set_insert (groupOf d k) t).2 := by
  induction d with
  | nil => simp [dict_insert_text, groupOf, dict_find, set_insert]
  | cons p rest ih =>
    obtain ⟨k', g⟩ := p
    by_cases h1 : textLt k k' = true
    · rw [groupOf_not_mem_lt_head hwf h1]
      simp [dict_insert_text, h1, set_insert]
    · by_cases h2 : textLt k' k = true
      · have hk : k' ≠ k := by
          intro he
          subst he
          rw [textLt_irrefl] at h2
          cases h2
        have hgo : groupOf ((k', g) :: rest) k = groupOf rest k := by
          simp [groupOf, dict_find, hk]
        rw [hgo]
        have ihr := ih (dictWF_tail hwf)
        simp [dict_insert_text, h1, h2, ihr]
      · have hk : k' = k :=
          textLt_connex (Bool.of_not_eq_true h2) (Bool.of_not_eq_true h1)
        subst hk
        have hgo : groupOf ((k', g) :: rest) k' = g := by
          simp [groupOf, dict_find]
        rw [hgo]
        simp [dict_insert_text, h1, h2]

theorem dict_insert_group {d : AnagramDictionary} {k : AnagramKey} {t : Text}
    (hwf : dictWF d) :
    groupOf (dict_insert_text d k t).2 k = (set_insert (groupOf d k) t).1 := by
  induction d with
  | nil => simp [dict_insert_text, groupOf, dict_find, set_insert]
  | cons p rest ih =>
    obtain ⟨k', g⟩ := p
    by_cases h1 : textLt k k' = true
    · rw [groupOf_not_mem_lt_head hwf h1]
      simp [dict_insert_text, h1, groupOf, dict_find, set_insert]
    · by_cases h2 : textLt k' k = true
      · have hk : k' ≠ k := by
          intro he
          subst he
          rw [textLt_irrefl] at h2
          cases h2
        have hgo : groupOf ((k', g) :: rest) k = groupOf rest k := by
          simp [groupOf, dict_find, hk]
        rw [hgo]
        have ihr := ih (dictWF_tail hwf)
        have hstep : (dict_insert_text ((k', g) :: rest) k t).2 =
            (k', g) :: (dict_insert_text rest k t).2 := by
          simp [dict_insert_text, h1, h2]
        rw [hstep, groupOf, dict_find, if_neg hk]
        exact ihr
      · have hk : k' = k :=
          textLt_connex (Bool.of_not_eq_true h2) (Bool.of_not_eq_true h1)
        subst hk
        have hgo : groupOf ((k', g) :: rest) k' = g := by
          simp [groupOf, dict_find]
        rw [hgo]
        have hstep : (dict_insert_text ((k', g) :: rest) k' t).2 =
            (k', (set_insert g t).1) :: rest := by
          simp [dict_insert_text, h1, h2]
        rw [hstep, groupOf, dict_find, if_pos rfl]
        rfl

/-- C2: compute_anagram retains exactly the alphanumeric characters of
the text, returns none precisely when nothing remains after filtering,
and otherwise returns those characters folded to lowercase and sorted in
ascending order of code point. -/
theorem compute_anagram_characterization (t : Text) :
    (compute_anagram t = none ↔ t.filter isalnum = []) ∧
    (∀ k, compute_anagram t = some k →
      k.Perm ((t.filter isalnum).map tolower) ∧ List.Sorted (· ≤ ·) k) := by
  simp only [compute_anagram]
  by_cases h : t.filter isalnum = []
  · refine ⟨by simp [h], ?_⟩
    intro k hk
    rw [if_pos h] at hk
    cases hk
  · refine ⟨by simp [h], ?_⟩
    intro k hk
    rw [if_neg h] at hk
    have h2 : List.insertionSort (· ≤ ·) ((t.filter isalnum).map tolower) = k :=
      Option.some.inj hk
    subst h2
    exact ⟨List.perm_insertionSort _ _, List.sorted_insertionSort _ _⟩

theorem compute_anagram_characterization_witness :
    List.Perm ([100, 103, 111] : List Nat)
      ((([103, 111, 100] : Text).filter isalnum).map tolower) ∧
    List.Sorted (· ≤ ·) ([100, 103, 111] : List Nat) :=
  (compute_anagram_characterization [103, 111, 100]).2 [100, 103, 111] (by decide)

/-- C4: inserting a text whose key computation fails (no alphanumeric
characters) returns false and leaves the dictionary entirely unchanged,
with no entry created. -/
theorem insert_not_usable (d : AnagramDictionary) (t : Text)
    (h : compute_anagram t = none) :
    insert_into_anagram_dictionary d t = (false, d) := by
  unfold insert_into_anagram_dictionary
  rw [h]

theorem insert_not_usable_witness :
    compute_anagram [35, 35, 35] = none ∧
    insert_into_anagram_dictionary [] [35, 35, 35] = (false, []) :=
  ⟨by decide, insert_not_usable [] [35, 35, 35] (by decide)⟩

theorem fetch_matching_anagrams_snd (d : AnagramDictionary) (t : Text) :
    (fetch_matching_anagrams d t).2 = d := by
  unfold fetch_matching_anagrams
  cases compute_anagram t with
  | none => rfl
  | some k =>
    cases hf : dict_find d k with
    | none => simp [hf]
    | some g => simp [hf]

/-- C7: lookup leaves the dictionary exactly as it was; in particular a
failed lookup creates no empty group entry for the queried key. -/
theorem fetch_read_only (d : AnagramDictionary) (t : Text) :
    (fetch_matching_anagrams d t).2 = d :=
  fetch_matching_anagrams_snd d t

/-- C5: lookup reports no match exactly when the key is unusable, absent
from the dictionary, or present with an empty group; a returned group is
never empty; and a symbols-only query never matches. -/
theorem fetch_no_match_characterization (d : AnagramDictionary) (t : Text) :
    ((fetch_matching_anagrams d t).1 = none ↔
      compute_anagram t = none ∨
        ∃ k, compute_anagram t = some k ∧
          (dict_find d k = none ∨ dict_find d k = some [])) ∧
    (∀ g, (fetch_matching_anagrams d t).1 = some g → g ≠ []) ∧
    (fetch_matching_anagrams d [35, 35, 35]).1 = none := by
  refine ⟨?_, ?_, rfl⟩
  · cases hk : compute_anagram t with
    | none => simp [fetch_matching_anagrams, hk]
    | some k =>
      cases hf : dict_find d k with
      | none => simp [fetch_matching_anagrams, hk, hf]
      | some g =>
        by_cases hg : g = []
        · subst hg
          simp [fetch_matching_anagrams, hk, hf]
        · simp [fetch_matching_anagrams, hk, hf, hg]
  · intro g hfetch
    cases hk : compute_anagram t with
    | none => simp [fetch_matching_anagrams, hk] at hfetch
    | some k =>
      cases hf : dict_find d k with
      | none => simp [fetch_matching_anagrams, hk, hf] at hfetch
      | some g' =>
        by_cases hg : g' = []
        · subst hg
          simp [fetch_matching_anagrams, hk, hf] at hfetch
        · simp [fetch_matching_anagrams, hk, hf, hg] at hfetch
          subst hfetch
          exact hg

theorem fetch_no_match_characterization_witness :
    ([[97, 99, 116]] : List Text) ≠ [] :=
  (fetch_no_match_characterization [([97, 99, 116], [[97, 99, 116]])]
      [99, 97, 116]).2.1 [[97, 99, 116]] (by decide)

/-- C3: for a well-formed dictionary and a text with a usable key,
insert returns false and leaves the dictionary unchanged when the exact
text is already in the key's group, and otherwise adds the original text
to that group and returns true; in particular inserting the same text
twice into the empty dictionary returns true then false and leaves the
group with exactly one entry. -/
theorem insert_usable_spec (d : AnagramDictionary) (t : Text) (k : AnagramKey)
    (hwf : dictWF d) (hk : compute_anagram t = some k) :
    (t ∈ groupOf d k → insert_into_anagram_dictionary d t = (false, d)) ∧
    (t ∉ groupOf d k →
      (insert_into_anagram_dictionary d t).1 = true ∧
      (groupOf (insert_into_anagram_dictionary d t).2 k).Perm (t :: groupOf d k) ∧
      t ∈ groupOf (insert_into_anagram_dictionary d t).2 k) ∧
    (insert_into_anagram_dictionary [] t).1 = true ∧
    insert_into_anagram_dictionary (insert_into_anagram_dictionary [] t).2 t =
      (false, (insert_into_anagram_dictionary [] t).2) ∧
    groupOf (insert_into_anagram_dictionary [] t).2 k = [t] := by
  have hins : ∀ d₀ : AnagramDictionary,
      insert_into_anagram_dictionary d₀ t = dict_insert_text d₀ k t := by
    intro d₀
    unfold insert_into_anagram_dictionary
    rw [hk]
  have h1 : insert_into_anagram_dictionary [] t = (true, [(k, [t])]) := by
    rw [hins]
    rfl
  have hwf1 : dictWF [(k, [t])] := by
    constructor
    · simp
    · intro p hp
      simp only [List.mem_singleton] at hp
      subst hp
      simp [groupSorted]
  have hg1 : groupOf [(k, [t])] k = [t] := by
    simp [groupOf, dict_find]
  refine ⟨?_, ?_, by rw [h1], ?_, by rw [h1, hg1]⟩
  · intro hmem
    rw [hins]
    exact dict_insert_of_mem hwf hmem
  · intro hmem
    obtain ⟨hf, hp⟩ := set_insert_of_not_mem hmem
    refine ⟨?_, ?_, ?_⟩
    · rw [hins]
      exact (dict_insert_flag hwf).trans hf
    · rw [hins, dict_insert_group hwf]
      exact hp
    · rw [hins, dict_insert_group hwf]
      exact set_insert_mem _ t
  · rw [h1]
    have hmem : t ∈ groupOf [(k, [t])] k := by
      rw [hg1]
      exact List.mem_singleton.mpr rfl
    rw [hins]
    exact dict_insert_of_mem hwf1 hmem

theorem insert_usable_spec_witness :
    groupOf (insert_into_anagram_dictionary [] [103, 111, 100]).2 [100, 103, 111] =
      [[103, 111, 100]] :=
  (insert_usable_spec [] [103, 111, 100] [100, 103, 111]
      ⟨List.Pairwise.nil, fun p hp => absurd hp (List.not_mem_nil p)⟩
      (by decide)).2.2.2.2

/-- Dictionaries reachable from the empty dictionary by any sequence of
insert and lookup operations. -/
inductive Reachable : AnagramDictionary → Prop where
  | empty : Reachable []
  | insert_step (d : AnagramDictionary) (t : Text) : Reachable d →
      Reachable (insert_into_anagram_dictionary d t).2
  | lookup_step (d : AnagramDictionary) (t : Text) : Reachable d →
      Reachable (fetch_matching_anagrams d t).2

theorem dict_insert_preserves_nonempty {d : AnagramDictionary}
    {k₀ : AnagramKey} {t : Text} (h : ∀ k g, (k, g) ∈ d → g ≠ []) :
    ∀ k g, (k, g) ∈ (dict_insert_text d k₀ t).2 → g ≠ [] := by
  induction d with
  | nil =>
    intro k g hm
    simp [dict_insert_text] at hm
    rcases hm with ⟨_, rfl⟩
    simp
  | cons p rest ih =>
    obtain ⟨k', g'⟩ := p
    intro k g hm
    by_cases h1 : textLt k₀ k' = true
    · have hstep : (dict_insert_text ((k', g') :: rest) k₀ t).2 =
          (k₀, [t]) :: (k', g') :: rest := by
        simp [dict_insert_text, h1]
      rw [hstep] at hm
      rcases List.mem_cons.mp hm with he | hm'
      · obtain ⟨_, rfl⟩ := Prod.mk.injEq .. ▸ he
        simp
      · exact h k g hm'
    · by_cases h2 : textLt k' k₀ = true
      · have hstep : (dict_insert_text ((k', g') :: rest) k₀ t).2 =
            (k', g') :: (dict_insert_text rest k₀ t).2 := by
          simp [dict_insert_text, h1, h2]
        rw [hstep] at hm
        rcases List.mem_cons.mp hm with he | hm'
        · obtain ⟨_, rfl⟩ := Prod.mk.injEq .. ▸ he
          exact h k' g (List.mem_cons_self _ _)
        · exact ih (fun a b hb => h a b (List.mem_cons_of_mem _ hb)) k g hm'
      · have hstep : (dict_insert_text ((k', g') :: rest) k₀ t).2 =
            (k', (set_insert g' t).1) :: rest := by
          simp [dict_insert_text, h1, h2]
        rw [hstep] at hm
        rcases List.mem_cons.mp hm with he | hm'
        · obtain ⟨_, rfl⟩ := Prod.mk.injEq .. ▸ he
          exact set_insert_ne_nil g' t
        · exact h k g (List.mem_cons_of_mem _ hm')

/-- C6: starting from the empty dictionary, after any sequence of insert
and lookup operations every key present in the dictionary maps to a
non-empty group. -/
theorem reachable_groups_nonempty (d : AnagramDictionary) (h : Reachable d) :
    ∀ k g, (k, g) ∈ d → g ≠ [] := by
  induction h with
  | empty => intro k g hm; cases hm
  | insert_step d₀ t _ ih =>
    intro k g hm
    unfold insert_into_anagram_dictionary at hm
    cases hk : compute_anagram t with
    | none => rw [hk] at hm; exact ih k g hm
    | some k₀ => rw [hk] at hm; exact dict_insert_preserves_nonempty ih k g hm
  | lookup_step d₀ t _ ih =>
    intro k g hm
    rw [fetch_matching_anagrams_snd] at hm
    exact ih k g hm

theorem reachable_groups_nonempty_witness :
    ([[103, 111, 100]] : List Text) ≠ [] :=
  reachable_groups_nonempty (insert_into_anagram_dictionary [] [103, 111, 100]).2
    (Reachable.insert_step [] [103, 111, 100] Reachable.empty)
    [100, 103, 111] [[103, 111, 100]] (by decide)

/-- The dictionary obtained by inserting the texts god, dog, act and bob
into an empty dictionary. -/
def scenario_dictionary : AnagramDictionary :=
  (insert_into_anagram_dictionary
    ((insert_into_anagram_dictionary
      ((insert_into_anagram_dictionary
        ((insert_into_anagram_dictionary [] [103, 111, 100]).2)
        [100, 111, 103]).2)
      [97, 99, 116]).2)
    [98, 111, 98]).2

/-- C8: after inserting god, dog, act and bob into an empty dictionary,
looking up GOD returns exactly the group of dog and god in lexicographic
order, looking up cat and act both return the group of act, and looking
up bob returns the group of bob. -/
theorem scenario_god_dog_act_bob :
    (fetch_matching_anagrams scenario_dictionary [71, 79, 68]).1 =
      some [[100, 111, 103], [103, 111, 100]] ∧
    (fetch_matching_anagrams scenario_dictionary [99, 97, 116]).1 =
      some [[97, 99, 116]] ∧
    (fetch_matching_anagrams scenario_dictionary [97, 99, 116]).1 =
      some [[97, 99, 116]] ∧
    (fetch_matching_anagrams scenario_dictionary [98, 111, 98]).1 =
      some [[98, 111, 98]] := by
  decide

/-- C9: compute_anagram maps a non-empty, entirely alphanumeric,
entirely lowercase and ascending-sorted string to itself. -/
theorem compute_anagram_canonical_fixed (k : Text) (hne : k ≠ [])
    (halnum : ∀ c ∈ k, isalnum c = true)
    (hlower : ∀ c ∈ k, tolower c = c)
    (hsorted : List.Sorted (· ≤ ·) k) :
    compute_anagram k = some k := by
  have hfilter : k.filter isalnum = k := List.filter_eq_self.mpr halnum
  have hmapAll : ∀ l : Text, (∀ c ∈ l, tolower c = c) → l.map tolower = l := by
    intro l
    induction l with
    | nil => intro _; rfl
    | cons c cs ih =>
      intro hl
      simp [hl c (List.mem_cons_self _ _),
        ih (fun x hx => hl x (List.mem_cons_of_mem _ hx))]
  have hmap : k.map tolower = k := hmapAll k hlower
  simp only [compute_anagram]
  rw [hfilter, hmap, if_neg hne, hsorted.insertionSort_eq]

theorem compute_anagram_canonical_fixed_witness :
    compute_anagram [97, 99, 116] = some [97, 99, 116] :=
  compute_anagram_canonical_fixed [97, 99, 116] (by decide) (by decide)
    (by decide) (by decide)

theorem dict_insert_find_mem (d : AnagramDictionary) (k : AnagramKey) (t : Text) :
    ∃ g, dict_find (dict_insert_text d k t).2 k = some g ∧ t ∈ g := by
  induction d with
  | nil =>
    refine ⟨[t], ?_, List.mem_cons_self _ _⟩
    simp [dict_insert_text, dict_find]
  | cons p rest ih =>
    obtain ⟨k', g⟩ := p
    by_cases h1 : textLt k k' = true
    · refine ⟨[t], ?_, List.mem_cons_self _ _⟩
      have hstep : (dict_insert_text ((k', g) :: rest) k t).2 =
          (k, [t]) :: (k', g) :: rest := by
        simp [dict_insert_text, h1]
      rw [hstep]
      simp [dict_find]
    · by_cases h2 : textLt k' k = true
      · have hk : k' ≠ k := by
          intro he
          rw [he, textLt_irrefl] at h2
          cases h2
        obtain ⟨g', hg', hm⟩ := ih
        refine ⟨g', ?_, hm⟩
        have hstep : (dict_insert_text ((k', g) :: rest) k t).2 =
            (k', g) :: (dict_insert_text rest k t).2 := by
          simp [dict_insert_text, h1, h2]
        rw [hstep, dict_find, if_neg hk]
        exact hg'
      · have hk : k' = k :=
          textLt_connex (Bool.of_not_eq_true h2) (Bool.of_not_eq_true h1)
        subst hk
        refine ⟨(set_insert g t).1, ?_, set_insert_mem g t⟩
        have hstep : (dict_insert_text ((k', g) :: rest) k' t).2 =
            (k', (set_insert g t).1) :: rest := by
          simp [dict_insert_text, h1, h2]
        rw [hstep, dict_find, if_pos rfl]

/-- C10: when an insert succeeds, a subsequent lookup of the same text on
the resulting dictionary returns a group containing the text in its
original, unmodified form. -/
theorem insert_then_fetch (d d' : AnagramDictionary) (t : Text)
    (h : insert_into_anagram_dictionary d t = (true, d')) :
    ∃ g, (fetch_matching_anagrams d' t).1 = some g ∧ t ∈ g := by
  unfold insert_into_anagram_dictionary at h
  cases hk : compute_anagram t with
  | none =>
    rw [hk] at h
    simp at h
  | some k =>
    rw [hk] at h
    have hd' : (dict_insert_text d k t).2 = d' := congrArg Prod.snd h
    obtain ⟨g, hg, hm⟩ := dict_insert_find_mem d k t
    rw [hd'] at hg
    have hne : g ≠ [] := List.ne_nil_of_mem hm
    refine ⟨g, ?_, hm⟩
    simp [fetch_matching_anagrams, hk, hg, hne]

theorem insert_then_fetch_witness :
    ∃ g, (fetch_matching_anagrams [([100, 103, 111], [[103, 111, 100]])]
        [103, 111, 100]).1 = some g ∧ ([103, 111, 100] : Text) ∈ g :=
  insert_then_fetch [] [([100, 103, 111], [[103, 111, 100]])] [103, 111, 100]
    (by decide)
